import Mathlib

/-!
Verification development for the TL Quotes Relay (`src/server.js`).

The JavaScript source is shallowly embedded: JS numbers are modelled as an
inductive `JNum` (a finite value, carried exactly as a rational, or `NaN`,
`Infinity`, `-Infinity`); arbitrarily-shaped JS values as the inductive
`JSVal` (plain objects as association lists; JS arrays are not needed by any
claim and are not modelled); the global `quotes` `Map` as an association
list with JS `Map` update semantics (in-place replacement, append on new
key); the mutable state and the SSE side effects become explicit state
passing, with broadcast deliveries returned as a list.  Wall-clock reads
(`Date.now()`) become explicit parameters.
-/

set_option autoImplicit false

namespace TLRelay

/-- A JavaScript number: a finite double (modelled exactly as a rational,
abstracting from IEEE-754 rounding, which no claim depends on), or one of the
non-finite values `NaN`, `Infinity`, `-Infinity`. -/
inductive JNum where
  | fin (q : ℚ)
  | nan
  | inf
  | neginf
deriving DecidableEq, Repr

/-- JS `Number.isFinite` on an already-numeric value. -/
def JNum.isFinite : JNum → Bool
  | .fin _ => true
  | _ => false

/-- JS truthiness of a number: `0` and `NaN` are falsy, everything else truthy. -/
def JNum.truthy : JNum → Bool
  | .fin q => decide (q ≠ 0)
  | .nan => false
  | .inf => true
  | .neginf => true

/-- An untyped JavaScript value, as received from the upstream feed.
Plain objects are association lists of string keys (a present key may hold
`undefined`, exactly as a JS object property can hold `undefined`). -/
inductive JSVal where
  | null
  | undefined
  | bool (b : Bool)
  | num (x : JNum)
  | str (s : String)
  | obj (fields : List (String × JSVal))

/-- JS truthiness: `null`, `undefined`, `false`, `0`, `NaN` and `""` are
falsy; objects and everything else are truthy. -/
def JSVal.truthy : JSVal → Bool
  | .null => false
  | .undefined => false
  | .bool b => b
  | .num x => x.truthy
  | .str s => decide (s ≠ "")
  | .obj _ => true

/-- JS `a || b`: `a` if truthy, else `b`. -/
def jsOr (a b : JSVal) : JSVal := if a.truthy then a else b

/-- Key lookup in the field list of a JS object literal. -/
def lookupField : List (String × JSVal) → String → Option JSVal
  | [], _ => none
  | (k, v) :: rest, key => if k = key then some v else lookupField rest key

/-- Plain JS property access `v[k]` (as used with optional chaining
`m?.quote` etc. in `processQuoteLikeEvent`): a missing key, or access on a
primitive, yields `undefined`; access on `null`/`undefined` is guarded by
`?.` at every call site and also yields `undefined`. -/
def getProp : JSVal → String → JSVal
  | .obj fs, k => (lookupField fs k).getD .undefined
  | _, _ => .undefined

/-- The guarded step of `first`:
`cur && Object.prototype.hasOwnProperty.call(cur, k) ? cur[k] : undefined`.
`hasOwnProperty` is false on primitives for every key the source ever
passes (the alias tables contain no numeric indices and no `length`). -/
def getOwn : JSVal → String → Option JSVal
  | .obj fs, k => lookupField fs k
  | _, _ => none

/-- The JS whitespace characters relevant to `String.prototype.trim` and
`Number(string)`: space, tab, line feed, carriage return, vertical tab, form
feed, no-break space and the BOM.  (The exotic Unicode space separators are
omitted; no claim depends on them.) -/
def isJSWhitespace (c : Char) : Bool :=
  c = ' ' || c = '\t' || c = '\n' || c = '\r' || c = '\x0B' ||
  c = '\x0C' || c = ' ' || c = '﻿'

/-- Strip leading and trailing JS whitespace from a character list. -/
def jsTrimList (l : List Char) : List Char :=
  ((l.dropWhile isJSWhitespace).reverse.dropWhile isJSWhitespace).reverse

/-- JS `s.trim()`. -/
def jsTrim (s : String) : String := String.mk (jsTrimList s.data)

/-- Split a character list at every occurrence of `sep`
(the semantics of JS `String.prototype.split` with a one-character
separator: `""` splits to `[""]`, and empty tokens are kept). -/
def splitOnChar (sep : Char) : List Char → List Char → List (List Char)
  | acc, [] => [acc.reverse]
  | acc, c :: rest =>
    if c = sep then acc.reverse :: splitOnChar sep [] rest
    else splitOnChar sep (c :: acc) rest

/-- JS `s.split(sep)` for a one-character separator. -/
def jsSplit (s : String) (sep : Char) : List String :=
  (splitOnChar sep [] s.data).map String.mk

/-- JS `Array.prototype.join(',')` on a list of strings. -/
def joinCommaAux : List (List Char) → List Char
  | [] => []
  | [l] => l
  | l :: ls => l ++ ',' :: joinCommaAux ls

/-- JS `arr.join(',')`. -/
def joinComma (ls : List String) : String :=
  String.mk (joinCommaAux (ls.map String.data))

/-- Decimal digit value of a character, if it is one. -/
def digitVal (c : Char) : Option Nat :=
  if '0' ≤ c ∧ c ≤ '9' then some (c.toNat - '0'.toNat) else none

/-- Longest prefix of decimal digits, returned with the rest of the input. -/
def takeDigits : List Char → (List Nat × List Char)
  | [] => ([], [])
  | c :: rest =>
    match digitVal c with
    | some d => let (ds, r) := takeDigits rest; (d :: ds, r)
    | none => ([], c :: rest)

/-- Value of a digit list read in the given base. -/
def natOfDigits (base : Nat) (ds : List Nat) : Nat :=
  ds.foldl (fun a d => a * base + d) 0

/-- Hexadecimal digit value of a character, if it is one. -/
def hexDigitVal (c : Char) : Option Nat :=
  if '0' ≤ c ∧ c ≤ '9' then some (c.toNat - '0'.toNat)
  else if 'a' ≤ c ∧ c ≤ 'f' then some (c.toNat - 'a'.toNat + 10)
  else if 'A' ≤ c ∧ c ≤ 'F' then some (c.toNat - 'A'.toNat + 10)
  else none

/-- Read an entire character list as digits of the given base (via a digit
reader); `none` if empty or if any character is not a digit. -/
def readRadix (dv : Char → Option Nat) (base : Nat) (l : List Char) : Option Nat :=
  match l with
  | [] => none
  | _ =>
    l.foldl (fun acc c =>
      match acc, dv c with
      | some a, some d => some (a * base + d)
      | _, _ => none) (some 0)

/-- Parse the exponent suffix `("e"|"E") [sign] digits` of a decimal number
literal, consuming the whole input. -/
def parseExpPart : List Char → Option Int
  | 'e' :: rest => parseSignedDigits rest
  | 'E' :: rest => parseSignedDigits rest
  | _ => none
where
  parseSignedDigits : List Char → Option Int
    | '+' :: r => parseAllDigits r
    | '-' :: r => (parseAllDigits r).map (fun v => -v)
    | r => parseAllDigits r
  parseAllDigits (r : List Char) : Option Int :=
    let (ds, rest) := takeDigits r
    match ds, rest with
    | [], _ => none
    | _, _ :: _ => none
    | _, [] => some (natOfDigits 10 ds)

/-- Parse an unsigned decimal literal `digits [. digits] [exp]` or
`. digits [exp]`, consuming the whole input; exact rational value. -/
def parseUnsignedDec (l : List Char) : Option ℚ :=
  let (ip, r1) := takeDigits l
  match r1 with
  | '.' :: r2 =>
    let (fp, r3) := takeDigits r2
    if ip.isEmpty ∧ fp.isEmpty then none
    else
      let mant : ℚ := (natOfDigits 10 ip : ℚ) + (natOfDigits 10 fp : ℚ) / ((10 : ℚ) ^ fp.length)
      match r3 with
      | [] => some mant
      | _ => (parseExpPart r3).map (fun e => mant * (10 : ℚ) ^ e)
  | _ =>
    if ip.isEmpty then none
    else
      let mant : ℚ := (natOfDigits 10 ip : ℚ)
      match r1 with
      | [] => some mant
      | _ => (parseExpPart r1).map (fun e => mant * (10 : ℚ) ^ e)

/-- Parse an unsigned JS number literal with no leading sign: `Infinity`,
a radix-prefixed integer (`0x`, `0o`, `0b`), or a decimal literal. -/
def parseNoSign (t : List Char) : JNum :=
  if t = "Infinity".data then .inf
  else
    match t with
    | '0' :: 'x' :: r => match readRadix hexDigitVal 16 r with
      | some v => .fin v | none => .nan
    | '0' :: 'X' :: r => match readRadix hexDigitVal 16 r with
      | some v => .fin v | none => .nan
    | '0' :: 'o' :: r => match readRadix (fun c => if '0' ≤ c ∧ c ≤ '7' then digitVal c else none) 8 r with
      | some v => .fin v | none => .nan
    | '0' :: 'O' :: r => match readRadix (fun c => if '0' ≤ c ∧ c ≤ '7' then digitVal c else none) 8 r with
      | some v => .fin v | none => .nan
    | '0' :: 'b' :: r => match readRadix (fun c => if '0' ≤ c ∧ c ≤ '1' then digitVal c else none) 2 r with
      | some v => .fin v | none => .nan
    | '0' :: 'B' :: r => match readRadix (fun c => if '0' ≤ c ∧ c ≤ '1' then digitVal c else none) 2 r with
      | some v => .fin v | none => .nan
    | _ => match parseUnsignedDec t with
      | some q => .fin q | none => .nan

/-- JS `Number(string)`: trimmed empty string is `0`; an optional sign
(not allowed before radix-prefixed forms) followed by `Infinity` or a
number literal; anything else is `NaN`.  Values are exact rationals
(IEEE-754 rounding abstracted; no claim depends on it). -/
def parseJSNumber (s : String) : JNum :=
  match jsTrimList s.data with
  | [] => .fin 0
  | '+' :: r =>
    if r = "Infinity".data then .inf
    else (match parseUnsignedDec r with | some q => JNum.fin q | none => JNum.nan)
  | '-' :: r =>
    if r = "Infinity".data then .neginf
    else (match parseUnsignedDec r with | some q => JNum.fin (-q) | none => JNum.nan)
  | t => parseNoSign t

/-- JS `Number(v)` coercion.  `null` is `0`, `undefined` is `NaN`, booleans
are `0`/`1`, strings are parsed, and a plain object coerces through the
primitive `"[object Object]"` to `NaN` (JS arrays, whose coercion differs,
are not modelled; the upstream payloads the claims exercise never coerce an
array to a number). -/
def toNumber : JSVal → JNum
  | .null => .fin 0
  | .undefined => .nan
  | .bool b => .fin (if b then 1 else 0)
  | .num x => x
  | .str s => parseJSNumber s
  | .obj _ => .nan

/-- `const n = (v)=>{ const x = Number(v); return Number.isFinite(x) ? x : NaN; }`. -/
def n (v : JSVal) : JNum :=
  let x := toNumber v
  if x.isFinite then x else .nan

/-- Walk one dotted path inside `first`:
`for (const k of parts) { if (cur && hasOwnProperty(cur,k)) cur = cur[k]; else { cur = undefined; break } }`. -/
def walkPath : JSVal → List String → JSVal
  | cur, [] => cur
  | cur, k :: rest =>
    if cur.truthy then
      match getOwn cur k with
      | some v => walkPath v rest
      | none => .undefined
    else .undefined

/-- `function first(obj, paths)`: try each dotted path in order and return
the first result that is neither `undefined` nor `null` nor `''`
(`none` plays the role of the final `return undefined`). -/
def first (o : JSVal) (paths : List String) : Option JSVal :=
  match paths with
  | [] => none
  | p :: rest =>
    let cur := walkPath o ((splitOnChar '.' [] p.data).map String.mk)
    if acceptable cur then some cur else first o rest
where
  /-- `cur !== undefined && cur !== null && cur !== ''`. -/
  acceptable : JSVal → Bool
    | .undefined => false
    | .null => false
    | .str s => decide (s ≠ "")
    | _ => true

/-- JS `String(v)` on the values the source can feed it.  Finite numbers are
rendered as exact rationals (`num/den`), diverging from JS shortest-double
formatting; no claim depends on the text of a numeric symbol. -/
def jsToString : JSVal → String
  | .null => "null"
  | .undefined => "undefined"
  | .bool b => if b then "true" else "false"
  | .num (.fin q) => if q.den = 1 then toString q.num else toString q.num ++ "/" ++ toString q.den
  | .num .nan => "NaN"
  | .num .inf => "Infinity"
  | .num .neginf => "-Infinity"
  | .str s => s
  | .obj _ => "[object Object]"

/-- Alias table for the symbol field (`processQuoteLikeEvent`). -/
def symbolAliases : List String := ["symbol", "instrument", "symbolName", "s", "Symbol"]

/-- Alias table for `bid`. -/
def bidAliases : List String := ["bid", "b", "Bid", "BidPrice"]

/-- Alias table for `ask`. -/
def askAliases : List String := ["ask", "a", "Ask", "AskPrice"]

/-- Alias table for `last`. -/
def lastAliases : List String := ["last", "price", "p", "mark", "Last", "LastPrice"]

/-- Alias table for `time`. -/
def timeAliases : List String := ["time", "ts", "timestamp", "Time", "Timestamp"]

/-- A stored quote record `{ bid, ask, last, time }`.  The three price
fields hold a finite number or are absent (`undefined`); `time` holds
whatever JS value the merge stored (always a number along the real code
path). -/
structure Quote where
  bid : Option ℚ
  ask : Option ℚ
  last : Option ℚ
  time : JSVal

/-- The patch object passed to `touchQuote`; fields are arbitrary JS values
(the normalizer passes a finite number or `undefined` for prices, and a
number for `time`). -/
structure Patch where
  bid : JSVal
  ask : JSVal
  last : JSVal
  time : JSVal

/-- The global `quotes` map, symbol to quote, as an association list with
JS `Map` semantics (unique keys when built by `setQ`; `set` on an existing
key replaces in place, otherwise appends). -/
abbrev QuoteStore : Type := List (String × Quote)

/-- `quotes.get(symbol)`. -/
def getQ : QuoteStore → String → Option Quote
  | [], _ => none
  | (k, v) :: rest, key => if k = key then some v else getQ rest key

/-- Does the store hold the key? -/
def containsKey (st : QuoteStore) (k : String) : Bool :=
  st.any (fun p => p.1 = k)

/-- `quotes.set(symbol, out)`: replace in place, or append a new entry. -/
def setQ (st : QuoteStore) (k : String) (v : Quote) : QuoteStore :=
  if containsKey st k then
    st.map (fun p => if p.1 = k then (k, v) else p)
  else st ++ [(k, v)]

/-- A registered SSE subscriber: its parsed symbol filter (the JS
`Set<string>` is modelled as a list; only membership and emptiness are ever
read). -/
structure Subscriber where
  filter : List String

/-- One delivered SSE `quotes` frame: `{ serverTime, symbol, quote }`. -/
structure UpdateMsg where
  serverTime : ℚ
  symbol : String
  quote : Quote

/-- The value of the stored field after `Number.isFinite(p) ? p : cur`:
the patch value when it is a finite number, otherwise the current value. -/
def finVal : JSVal → Option ℚ
  | .num (.fin q) => some q
  | _ => none

/-- One field of the merge in `touchQuote`. -/
def mergeField (p : JSVal) (c : Option ℚ) : Option ℚ :=
  match finVal p with
  | some q => some q
  | none => c

/-- The fresh record `{}` used when a symbol is first seen
(`quotes.get(symbol) || {}`): every field reads as `undefined`. -/
def emptyQuote : Quote := { bid := none, ask := none, last := none, time := .undefined }

/-- The `out` record built by `touchQuote`: per-field last-write-wins on
the prices, and `time: patch.time || now`. -/
def mergeQuote (cur : Quote) (patch : Patch) (now : ℚ) : Quote :=
  { bid := mergeField patch.bid cur.bid
    ask := mergeField patch.ask cur.ask
    last := mergeField patch.last cur.last
    time := jsOr patch.time (.num (.fin now)) }

/-- `function pushQuote(symbol)`: look the symbol up, and write the
`{serverTime, symbol, quote}` frame to every subscriber whose filter is
empty or contains the symbol (`if (sub.filter.size && !sub.filter.has(symbol)) continue`).
The writes are returned as a delivery list. -/
def pushQuote (st : QuoteStore) (subsL : List Subscriber) (symbol : String)
    (serverTime : ℚ) : List (Subscriber × UpdateMsg) :=
  match getQ st symbol with
  | none => []
  | some q =>
    (subsL.filter
        (fun sub => !(!sub.filter.isEmpty && !sub.filter.contains symbol))).map
      (fun sub => (sub, ⟨serverTime, symbol, q⟩))

/-- `function touchQuote(symbol, patch)`: no-op on a falsy symbol, else
merge into the store and broadcast.  `now` is the `Date.now()` read inside
the function (also used as the broadcast `serverTime`; the source reads the
clock again inside `pushQuote` in the same tick). -/
def touchQuote (st : QuoteStore) (subsL : List Subscriber) (symbol : String)
    (patch : Patch) (now : ℚ) : QuoteStore × List (Subscriber × UpdateMsg) :=
  if symbol = "" then (st, [])
  else
    let out := mergeQuote ((getQ st symbol).getD emptyQuote) patch now
    let st2 := setQ st symbol out
    (st2, pushQuote st2 subsL symbol now)

/-- `m?.quote || m?.data?.quote || m?.payload?.quote || m?.payload || m`. -/
def srcOf (m : JSVal) : JSVal :=
  jsOr (getProp m "quote")
    (jsOr (getProp (getProp m "data") "quote")
      (jsOr (getProp (getProp m "payload") "quote")
        (jsOr (getProp m "payload") m)))

/-- `String(first(src, symbolAliases) || '')`. -/
def resolveSymbol (m : JSVal) : String :=
  jsToString (jsOr ((first (srcOf m) symbolAliases).getD .undefined) (.str ""))

/-- `n(first(src, aliases))` followed by
`Number.isFinite(x) ? x : undefined` when the patch is built. -/
def extractField (src : JSVal) (aliases : List String) : JSVal :=
  let x := n ((first src aliases).getD .undefined)
  if x.isFinite then .num x else .undefined

/-- `Number(first(src, timeAliases)) || Date.now()`. -/
def normTime (src : JSVal) (nowNorm : ℚ) : JNum :=
  let t := toNumber ((first src timeAliases).getD .undefined)
  if t.truthy then t else .fin nowNorm

/-- `function processQuoteLikeEvent(m)`.  `nowNorm` is the `Date.now()`
read while normalizing (the `time` default), `nowMerge` the one read inside
`touchQuote`.  Returns the updated store and the broadcast deliveries;
an event with no resolvable symbol returns the store unchanged with no
deliveries. -/
def processQuoteLikeEvent (st : QuoteStore) (subsL : List Subscriber) (m : JSVal)
    (nowNorm nowMerge : ℚ) : QuoteStore × List (Subscriber × UpdateMsg) :=
  let src := srcOf m
  let symbol := resolveSymbol m
  if symbol = "" then (st, [])
  else
    touchQuote st subsL symbol
      { bid := extractField src bidAliases
        ask := extractField src askAliases
        last := extractField src lastAliases
        time := .num (normTime src nowNorm) }
      nowMerge

/-- One tick of the watchdog `setInterval`:
`if (!STALE_MS) return; if (!socket.connected) { const age = now - (lastBrandEventAt || 0); if (age > STALE_MS) exit }`.
`lastBrandEventAt || 0` is the identity on the numeric values the variable
ever holds (`0` initially, `Date.now()` afterwards).  A threshold of `0` is
falsy, so the check never runs. -/
def watchdogFires (staleMs : ℚ) (connected : Bool) (now lastBrandEventAt : ℚ) : Bool :=
  if staleMs = 0 then false
  else if connected then false
  else decide (now - lastBrandEventAt > staleMs)

/-- The JSON body of `GET /quotes/state`. -/
structure SnapshotResp where
  serverTime : ℚ
  count : Nat
  quotes : List (String × Quote)

/-- The `GET /quotes/state` handler: copy every stored entry whose symbol
passes the filter (`if (filter.size && !filter.has(s)) continue`), and
reply with `{ serverTime, count: Object.keys(out).length, quotes: out }`.
The handler only reads the store; the returned second component is the
store it leaves behind. -/
def quotesStateRoute (st : QuoteStore) (filter : List String) (now : ℚ) :
    SnapshotResp × QuoteStore :=
  let out := st.filter (fun p => !(!filter.isEmpty && !filter.contains p.1))
  (⟨now, out.length, out⟩, st)

/-- An Express query-parameter value for `symbols`: absent, a string, or an
array of strings. -/
inductive QueryParam where
  | absentQ
  | strQ (s : String)
  | arrQ (ls : List String)

/-- The string that `parseSymbolsParam` splits: arrays are joined with
commas first, then `String(q || '')` (for a string or absent `q`, that is
the string itself or `''`). -/
def rawParamString : QueryParam → String
  | .absentQ => ""
  | .strQ s => if s = "" then "" else s
  | .arrQ ls => if joinComma ls = "" then "" else joinComma ls

/-- `function parseSymbolsParam(q)`: split on commas, trim each token, drop
empty tokens.  The JS `Set` is modelled as the token list (only membership
and emptiness are ever read, and both are insensitive to duplicates). -/
def parseSymbolsParam (q : QueryParam) : List String :=
  ((jsSplit (rawParamString q) ',').map jsTrim).filter (fun s => s ≠ "")

/-- Repeated merging of a sequence of deltas for one symbol via
`touchQuote`; each delta carries the patch and the `Date.now()` of its
merge. -/
def applyDeltas (st : QuoteStore) (subsL : List Subscriber) (symbol : String)
    (ds : List (Patch × ℚ)) : QuoteStore :=
  ds.foldl (fun s d => (touchQuote s subsL symbol d.1 d.2).1) st

/-- Stated from the spec, for comparison with the merge: the value of the
most recent delta in the sequence that supplied a finite number for the
field read by `f` (deltas that omitted the field or supplied a non-finite
value are skipped); `none` when no delta ever supplied one. -/
def lastFiniteValue (ds : List (Patch × ℚ)) (f : Patch → JSVal) : Option ℚ :=
  ds.reverse.findSome? (fun d => finVal (f d.1))

/-! ### Store lemmas -/

theorem getQ_append (st l : QuoteStore) (k : String) (h : containsKey st k = false) :
    getQ (st ++ l) k = getQ l k := by
  induction st with
  | nil => rfl
  | cons p rest ih =>
    simp only [containsKey, List.any_cons, Bool.or_eq_false_iff,
      decide_eq_false_iff_not] at h
    obtain ⟨k', v⟩ := p
    simp only [List.cons_append, getQ, if_neg h.1]
    exact ih (by simpa [containsKey] using h.2)

theorem getQ_map_replace (st : QuoteStore) (k : String) (v : Quote)
    (h : containsKey st k = true) :
    getQ (st.map (fun p => if p.1 = k then (k, v) else p)) k = some v := by
  induction st with
  | nil => simp [containsKey] at h
  | cons p rest ih =>
    obtain ⟨k', w⟩ := p
    simp only [List.map_cons]
    by_cases hk : k' = k
    · have hhead : (if ((k', w) : String × Quote).1 = k then (k, v) else (k', w)) = (k, v) :=
        if_pos hk
      rw [hhead]
      show (if k = k then some v
          else getQ (rest.map (fun p => if p.1 = k then (k, v) else p)) k) = some v
      rw [if_pos rfl]
    · have hhead : (if ((k', w) : String × Quote).1 = k then (k, v) else (k', w)) = (k', w) :=
        if_neg hk
      rw [hhead]
      show (if k' = k then some w
          else getQ (rest.map (fun p => if p.1 = k then (k, v) else p)) k) = some v
      rw [if_neg hk]
      apply ih
      simp only [containsKey, List.any_cons, Bool.or_eq_true, decide_eq_true_eq] at h
      rcases h with h | h
      · exact absurd h hk
      · simpa [containsKey] using h

theorem getQ_setQ_self (st : QuoteStore) (k : String) (v : Quote) :
    getQ (setQ st k v) k = some v := by
  by_cases h : containsKey st k = true
  · simp only [setQ, h, if_true]
    exact getQ_map_replace st k v h
  · have h' : containsKey st k = false := by simpa using h
    simp only [setQ, h', Bool.false_eq_true, if_false]
    rw [getQ_append st [(k, v)] k h']
    simp [getQ]

theorem map_replace_of_not_contains (st : QuoteStore) (k : String) (v : Quote)
    (h : containsKey st k = false) :
    st.map (fun p => if p.1 = k then (k, v) else p) = st := by
  induction st with
  | nil => rfl
  | cons p rest ih =>
    simp only [containsKey, List.any_cons, Bool.or_eq_false_iff,
      decide_eq_false_iff_not] at h
    obtain ⟨k', w⟩ := p
    simp only [List.map_cons, if_neg h.1]
    rw [ih (by simpa [containsKey] using h.2)]

theorem containsKey_map_replace (st : QuoteStore) (k : String) (v : Quote) :
    containsKey (st.map (fun p => if p.1 = k then (k, v) else p)) k
      = containsKey st k := by
  induction st with
  | nil => rfl
  | cons p rest ih =>
    obtain ⟨k', w⟩ := p
    by_cases hk : k' = k
    · simp [containsKey, hk]
    · have hhead : (if ((k', w) : String × Quote).1 = k then (k, v) else (k', w)) = (k', w) :=
        if_neg hk
      simp only [List.map_cons, hhead, containsKey, List.any_cons]
      simp only [containsKey] at ih
      rw [ih]

theorem map_replace_twice (st : QuoteStore) (k : String) (v w : Quote) :
    (st.map (fun p => if p.1 = k then (k, v) else p)).map
        (fun p => if p.1 = k then (k, w) else p)
      = st.map (fun p => if p.1 = k then (k, w) else p) := by
  induction st with
  | nil => rfl
  | cons p rest ih =>
    obtain ⟨k', u⟩ := p
    by_cases hk : k' = k <;> simp [hk, ih]

theorem setQ_setQ (st : QuoteStore) (k : String) (v w : Quote) :
    setQ (setQ st k v) k w = setQ st k w := by
  by_cases h : containsKey st k = true
  · unfold setQ
    rw [h]
    simp only [if_true]
    rw [containsKey_map_replace st k v, h]
    simp only [if_true]
    exact map_replace_twice st k v w
  · have h' : containsKey st k = false := by simpa using h
    unfold setQ
    rw [h']
    simp only [Bool.false_eq_true, if_false]
    have hc : containsKey (st ++ [(k, v)]) k = true := by
      simp [containsKey]
    rw [hc]
    simp only [if_true, List.map_append]
    rw [map_replace_of_not_contains st k w h']
    simp

/-! ### Merge lemmas -/

theorem mergeField_or (p : JSVal) (c : Option ℚ) : mergeField p c = (finVal p).or c := by
  cases h : finVal p <;> simp [mergeField, h]

theorem mergeField_mergeField (p : JSVal) (c : Option ℚ) :
    mergeField p (mergeField p c) = mergeField p c := by
  cases h : finVal p <;> simp [mergeField, h]

theorem mergeQuote_mergeQuote (c : Quote) (p : Patch) (t₁ t₂ : ℚ) :
    mergeQuote (mergeQuote c p t₁) p t₂ = mergeQuote c p t₂ := by
  simp [mergeQuote, mergeField_mergeField]

theorem foldl_mergeField (g : Patch × ℚ → JSVal) :
    ∀ (ds : List (Patch × ℚ)) (a : Option ℚ),
      ds.foldl (fun acc d => mergeField (g d) acc) a
        = (ds.reverse.findSome? (fun d => finVal (g d))).or a := by
  intro ds
  induction ds with
  | nil => intro a; simp
  | cons d t ih =>
    intro a
    rw [List.foldl_cons, ih (mergeField (g d) a), List.reverse_cons,
      List.findSome?_append, Option.or_assoc]
    congr 1
    rw [mergeField_or]
    cases h : finVal (g d) <;> simp [List.findSome?_cons, h]

theorem touchQuote_fst (st : QuoteStore) (subsL : List Subscriber) (sym : String)
    (p : Patch) (t : ℚ) (h : sym ≠ "") :
    (touchQuote st subsL sym p t).1
      = setQ st sym (mergeQuote ((getQ st sym).getD emptyQuote) p t) := by
  simp [touchQuote, h]

theorem applyDeltas_fields (subsL : List Subscriber) (sym : String) (h : sym ≠ "") :
    ∀ (ds : List (Patch × ℚ)) (st : QuoteStore) (q₀ : Quote), getQ st sym = some q₀ →
      ∃ q, getQ (applyDeltas st subsL sym ds) sym = some q
        ∧ q.bid = ds.foldl (fun a d => mergeField d.1.bid a) q₀.bid
        ∧ q.ask = ds.foldl (fun a d => mergeField d.1.ask a) q₀.ask
        ∧ q.last = ds.foldl (fun a d => mergeField d.1.last a) q₀.last := by
  intro ds
  induction ds with
  | nil => intro st q₀ h0; exact ⟨q₀, h0, rfl, rfl, rfl⟩
  | cons d t ih =>
    intro st q₀ h0
    have h1 : getQ ((touchQuote st subsL sym d.1 d.2).1) sym
        = some (mergeQuote q₀ d.1 d.2) := by
      rw [touchQuote_fst st subsL sym d.1 d.2 h, h0]
      exact getQ_setQ_self st sym (mergeQuote q₀ d.1 d.2)
    obtain ⟨q, hq, hb, ha, hl⟩ := ih ((touchQuote st subsL sym d.1 d.2).1)
      (mergeQuote q₀ d.1 d.2) h1
    refine ⟨q, ?_, hb, ha, hl⟩
    simpa [applyDeltas, List.foldl_cons] using hq

/-- C1: for every sequence of deltas merged for one symbol via `touchQuote`
(starting from a store that does not yet hold the symbol), the stored
quote's `bid`, `ask` and `last` each equal the value of the most recent
delta that supplied a finite number for that field, deltas that omitted the
field or supplied a non-finite value being skipped; a field no delta ever
supplied finitely is absent (`lastFiniteValue` returns `none`). -/
theorem merge_is_per_field_last_write_wins (st : QuoteStore) (subsL : List Subscriber)
    (sym : String) (ds : List (Patch × ℚ)) (h : sym ≠ "")
    (h0 : getQ st sym = none) (hds : ds ≠ []) :
    ∃ q, getQ (applyDeltas st subsL sym ds) sym = some q
      ∧ q.bid = lastFiniteValue ds Patch.bid
      ∧ q.ask = lastFiniteValue ds Patch.ask
      ∧ q.last = lastFiniteValue ds Patch.last := by
  obtain ⟨d, t, rfl⟩ : ∃ d t, ds = d :: t := by
    cases ds with
    | nil => exact absurd rfl hds
    | cons d t => exact ⟨d, t, rfl⟩
  have h1 : getQ ((touchQuote st subsL sym d.1 d.2).1) sym
      = some (mergeQuote emptyQuote d.1 d.2) := by
    rw [touchQuote_fst st subsL sym d.1 d.2 h, h0]
    exact getQ_setQ_self st sym (mergeQuote emptyQuote d.1 d.2)
  obtain ⟨q, hq, hb, ha, hl⟩ := applyDeltas_fields subsL sym h t
    ((touchQuote st subsL sym d.1 d.2).1) (mergeQuote emptyQuote d.1 d.2) h1
  refine ⟨q, by simpa [applyDeltas, List.foldl_cons] using hq, ?_, ?_, ?_⟩
  · exact hb.trans ((foldl_mergeField (fun d2 => d2.1.bid) (d :: t) none).trans
      (by simp [lastFiniteValue]))
  · exact ha.trans ((foldl_mergeField (fun d2 => d2.1.ask) (d :: t) none).trans
      (by simp [lastFiniteValue]))
  · exact hl.trans ((foldl_mergeField (fun d2 => d2.1.last) (d :: t) none).trans
      (by simp [lastFiniteValue]))

/-- C1 witness: two concrete deltas for `"EURUSD"` (the first supplies a
finite bid and a `NaN` last, the second a finite ask and a string last). -/
theorem merge_is_per_field_last_write_wins_witness :
    ∃ q, getQ (applyDeltas [] [] "EURUSD"
        [({ bid := .num (.fin 2), ask := .undefined, last := .num .nan,
            time := .num (.fin 5) }, 100),
         ({ bid := .undefined, ask := .num (.fin 3), last := .str "x",
            time := .num (.fin 6) }, 200)]) "EURUSD" = some q
      ∧ q.bid = lastFiniteValue
          [({ bid := .num (.fin 2), ask := .undefined, last := .num .nan,
              time := .num (.fin 5) }, 100),
           ({ bid := .undefined, ask := .num (.fin 3), last := .str "x",
              time := .num (.fin 6) }, 200)] Patch.bid
      ∧ q.ask = lastFiniteValue
          [({ bid := .num (.fin 2), ask := .undefined, last := .num .nan,
              time := .num (.fin 5) }, 100),
           ({ bid := .undefined, ask := .num (.fin 3), last := .str "x",
              time := .num (.fin 6) }, 200)] Patch.ask
      ∧ q.last = lastFiniteValue
          [({ bid := .num (.fin 2), ask := .undefined, last := .num .nan,
              time := .num (.fin 5) }, 100),
           ({ bid := .undefined, ask := .num (.fin 3), last := .str "x",
              time := .num (.fin 6) }, 200)] Patch.last :=
  merge_is_per_field_last_write_wins [] [] "EURUSD" _
    (by decide) rfl (List.cons_ne_nil _ _)

/-- C2: merging is idempotent: applying the same delta twice via
`touchQuote` leaves exactly the store that applying it once leaves, the
`time` field reflecting the latest application (both sides carry the
clock reading `t₂` of the last application). -/
theorem touchQuote_idempotent (st : QuoteStore) (subsL : List Subscriber)
    (sym : String) (p : Patch) (t₁ t₂ : ℚ) :
    (touchQuote (touchQuote st subsL sym p t₁).1 subsL sym p t₂).1
      = (touchQuote st subsL sym p t₂).1 := by
  by_cases h : sym = ""
  · simp [touchQuote, h]
  · rw [touchQuote_fst _ _ _ _ _ h, touchQuote_fst _ _ _ _ _ h,
      touchQuote_fst _ _ _ _ _ h, getQ_setQ_self]
    simp only [Option.getD_some]
    rw [mergeQuote_mergeQuote, setQ_setQ]

/-- The skip condition `filter.size && !filter.has(x)`, negated: an entry
passes a filter exactly when the filter is empty or contains it. -/
theorem passesFilter_iff (f : List String) (s : String) :
    ((!(!f.isEmpty && !f.contains s)) = true) ↔ (f = [] ∨ s ∈ f) := by
  cases f with
  | nil => simp
  | cons x xs => simp [List.contains, List.elem_iff]

/-- C3: during a broadcast of a stored quote for a symbol, a registered
subscriber receives the `{serverTime, symbol, quote}` update exactly when
its filter set is empty or contains the symbol; and every frame delivered
to it by that broadcast is that update (so a subscriber whose filter is
`["EURUSD"]` receives nothing for any other symbol, and one with an empty
filter receives every symbol's update). -/
theorem pushQuote_filter_semantics (st : QuoteStore) (subsL : List Subscriber)
    (symbol : String) (serverTime : ℚ) (q : Quote) (sub : Subscriber)
    (hq : getQ st symbol = some q) (hs : sub ∈ subsL) :
    ((sub, (⟨serverTime, symbol, q⟩ : UpdateMsg)) ∈ pushQuote st subsL symbol serverTime
      ↔ (sub.filter = [] ∨ symbol ∈ sub.filter))
    ∧ ∀ msg, (sub, msg) ∈ pushQuote st subsL symbol serverTime
        → msg = ⟨serverTime, symbol, q⟩ := by
  have hpush : pushQuote st subsL symbol serverTime
      = (subsL.filter (fun s => !(!s.filter.isEmpty && !s.filter.contains symbol))).map
          (fun s => (s, (⟨serverTime, symbol, q⟩ : UpdateMsg))) := by
    simp [pushQuote, hq]
  constructor
  · rw [hpush]
    constructor
    · intro hmem
      obtain ⟨a, haf, he⟩ := List.mem_map.mp hmem
      obtain ⟨ha, hc⟩ := List.mem_filter.mp haf
      have hfst : a = sub := congrArg Prod.fst he
      subst hfst
      exact (passesFilter_iff a.filter symbol).mp hc
    · intro hor
      exact List.mem_map.mpr ⟨sub,
        List.mem_filter.mpr ⟨hs, (passesFilter_iff sub.filter symbol).mpr hor⟩, rfl⟩
  · intro msg hmem
    rw [hpush] at hmem
    obtain ⟨a, _, he⟩ := List.mem_map.mp hmem
    exact (congrArg Prod.snd he).symm

/-- C3 witness: a store holding `"EURUSD"` and one unfiltered subscriber,
which receives the update. -/
theorem pushQuote_filter_semantics_witness :
    ((⟨[]⟩ : Subscriber),
        (⟨7, "EURUSD", ⟨some 1, none, none, JSVal.num (JNum.fin 5)⟩⟩ : UpdateMsg))
      ∈ pushQuote [("EURUSD", ⟨some 1, none, none, JSVal.num (JNum.fin 5)⟩)]
          [⟨[]⟩] "EURUSD" 7 :=
  ((pushQuote_filter_semantics [("EURUSD", ⟨some 1, none, none, JSVal.num (JNum.fin 5)⟩)]
      [⟨[]⟩] "EURUSD" 7 ⟨some 1, none, none, JSVal.num (JNum.fin 5)⟩ ⟨[]⟩
      rfl (List.mem_singleton.mpr rfl)).1).mpr (Or.inl rfl)

/-- C6: one watchdog tick triggers exactly when the threshold is nonzero,
the socket reports not connected, and the elapsed time strictly exceeds
the threshold; with threshold 120000 it triggers when disconnected at
121000 elapsed and not at 119000; with threshold 0 it never fires. -/
theorem watchdog_semantics (s : ℚ) (c : Bool) (now last : ℚ) :
    (watchdogFires s c now last = true ↔ (s ≠ 0 ∧ c = false ∧ now - last > s))
    ∧ watchdogFires 120000 false (last + 121000) last = true
    ∧ watchdogFires 120000 false (last + 119000) last = false
    ∧ watchdogFires 0 c now last = false := by
  refine ⟨?_, ?_, ?_, by simp [watchdogFires]⟩
  · unfold watchdogFires
    by_cases h0 : s = 0
    · simp [h0]
    · cases c <;> simp [h0]
  · unfold watchdogFires
    rw [if_neg (by norm_num : (120000 : ℚ) ≠ 0)]
    simp only [Bool.false_eq_true, if_false]
    rw [add_sub_cancel_left, decide_eq_true_eq]
    norm_num
  · unfold watchdogFires
    rw [if_neg (by norm_num : (120000 : ℚ) ≠ 0)]
    simp only [Bool.false_eq_true, if_false]
    rw [add_sub_cancel_left]
    rw [decide_eq_false_iff_not]
    norm_num

/-- C8: the `GET /quotes/state` snapshot holds exactly the current quote of
every stored symbol that passes the filter (every stored symbol when the
filter is empty), its `count` equals the number of returned symbols (the
returned symbol list stays duplicate-free), it carries the `serverTime`,
and the handler leaves the store unchanged. -/
theorem quotesState_semantics (st : QuoteStore) (f : List String) (now : ℚ)
    (s : String) (q : Quote) (hnd : (st.map Prod.fst).Nodup) :
    ((s, q) ∈ (quotesStateRoute st f now).1.quotes
        ↔ ((s, q) ∈ st ∧ (f = [] ∨ s ∈ f)))
    ∧ (quotesStateRoute st f now).1.count = (quotesStateRoute st f now).1.quotes.length
    ∧ ((quotesStateRoute st f now).1.quotes.map Prod.fst).Nodup
    ∧ (quotesStateRoute st f now).1.serverTime = now
    ∧ (quotesStateRoute st f now).2 = st := by
  refine ⟨?_, rfl, ?_, rfl, rfl⟩
  · simp only [quotesStateRoute, List.mem_filter]
    exact and_congr_right (fun _ => passesFilter_iff f s)
  · exact List.Nodup.sublist (List.Sublist.map Prod.fst (List.filter_sublist st)) hnd

/-- C8 witness: a one-entry store with an empty filter. -/
theorem quotesState_semantics_witness :
    ("A", (⟨some 1, none, none, JSVal.num (JNum.fin 5)⟩ : Quote))
      ∈ (quotesStateRoute [("A", ⟨some 1, none, none, JSVal.num (JNum.fin 5)⟩)] [] 9).1.quotes :=
  ((quotesState_semantics [("A", ⟨some 1, none, none, JSVal.num (JNum.fin 5)⟩)] [] 9
      "A" ⟨some 1, none, none, JSVal.num (JNum.fin 5)⟩ (by simp)).1).mpr
    ⟨List.mem_singleton.mpr rfl, Or.inl rfl⟩

/-- C10: the parsed subscriber filter is the set of comma-separated,
whitespace-trimmed, non-empty tokens of the `symbols` query value; an
array value is first joined with commas; a missing, empty, or
whitespace-only value yields the empty filter. -/
theorem parseSymbols_semantics (q : QueryParam) (ls : List String) (x : String) :
    (x ∈ parseSymbolsParam q
      ↔ (x ≠ "" ∧ ∃ t ∈ jsSplit (rawParamString q) ',', jsTrim t = x))
    ∧ parseSymbolsParam (.arrQ ls) = parseSymbolsParam (.strQ (joinComma ls))
    ∧ parseSymbolsParam .absentQ = []
    ∧ parseSymbolsParam (.strQ "") = []
    ∧ parseSymbolsParam (.strQ " \t ") = []
    ∧ parseSymbolsParam (.strQ " , ,") = [] := by
  refine ⟨?_, rfl, rfl, rfl, ?_, ?_⟩
  · simp only [parseSymbolsParam, List.mem_filter, List.mem_map]
    constructor
    · rintro ⟨⟨t, ht, rfl⟩, hne⟩
      exact ⟨by simpa using hne, t, ht, rfl⟩
    · rintro ⟨hne, t, ht, rfl⟩
      exact ⟨⟨t, ht, rfl⟩, by simpa using hne⟩
  · rfl
  · rfl

/-- C4: a raw field value for `bid`/`ask`/`last` whose numeric coercion is
non-finite is treated as absent (`undefined`) in the produced delta — the
extraction is total, so no error is raised — and merging that absent field
preserves the prior stored value; the merged result stays distinguishable
from the merge of a genuine zero price. -/
theorem nonfinite_field_absent (src : JSVal) (aliases : List String) (c : Option ℚ)
    (h : (toNumber ((first src aliases).getD .undefined)).isFinite = false) :
    extractField src aliases = JSVal.undefined
    ∧ mergeField (extractField src aliases) c = c
    ∧ mergeField (extractField src aliases) none
        ≠ mergeField (JSVal.num (JNum.fin 0)) none := by
  have h1 : extractField src aliases = JSVal.undefined := by
    simp only [extractField, n]
    rw [h]
    rfl
  refine ⟨h1, ?_, ?_⟩
  · rw [h1]; rfl
  · rw [h1]
    simp [mergeField, finVal]

/-- C4 witness: the string `"abc"`, which fails numeric coercion, supplied
for `bid`; the delta field is absent and a prior stored bid survives. -/
theorem nonfinite_field_absent_witness :
    (toNumber ((first (JSVal.obj [("bid", JSVal.str "abc")]) bidAliases).getD .undefined)).isFinite
        = false
    ∧ extractField (JSVal.obj [("bid", JSVal.str "abc")]) bidAliases = JSVal.undefined
    ∧ mergeField (extractField (JSVal.obj [("bid", JSVal.str "abc")]) bidAliases)
        (some 3) = some 3 :=
  ⟨rfl, (nonfinite_field_absent (JSVal.obj [("bid", JSVal.str "abc")]) bidAliases (some 3) rfl).1,
    (nonfinite_field_absent (JSVal.obj [("bid", JSVal.str "abc")]) bidAliases (some 3) rfl).2.1⟩

/-- C9: an upstream event in which no symbol alias is present with a
non-null, non-empty value (`first` returns nothing over the symbol alias
table) produces no output: the normalizer leaves the quote store unchanged
and broadcasts nothing; the function is total, so no error is raised. -/
theorem unresolvable_symbol_no_output (st : QuoteStore) (subsL : List Subscriber)
    (m : JSVal) (nowNorm nowMerge : ℚ)
    (h : first (srcOf m) symbolAliases = none) :
    processQuoteLikeEvent st subsL m nowNorm nowMerge = (st, []) := by
  have hsym : resolveSymbol m = "" := by
    simp [resolveSymbol, h, jsOr, JSVal.truthy, jsToString]
  simp [processQuoteLikeEvent, hsym]

/-- C9 witness: the event `{type:"NEWS"}` dropped over a non-empty store. -/
theorem unresolvable_symbol_no_output_witness :
    processQuoteLikeEvent [("EURUSD", ⟨some 1, none, none, JSVal.num (JNum.fin 5)⟩)] []
        (JSVal.obj [("type", JSVal.str "NEWS")]) 11 12
      = ([("EURUSD", ⟨some 1, none, none, JSVal.num (JNum.fin 5)⟩)], []) :=
  unresolvable_symbol_no_output [("EURUSD", ⟨some 1, none, none, JSVal.num (JNum.fin 5)⟩)] []
    (JSVal.obj [("type", JSVal.str "NEWS")]) 11 12 rfl

/-- C7 counterexample: the upstream event
`{quote:{symbol:"EURUSD", bid:1, time:0}}` supplies the numeric time `0`;
the claim requires the stored `time` to be that incoming value, but the
code (`Number(first(...)) || Date.now()`) replaces the falsy `0` with the
normalization wall clock `777`. -/
theorem merge_time_claim_counterexample :
    ∃ q, getQ (processQuoteLikeEvent [] []
        (JSVal.obj [("quote", JSVal.obj [("symbol", JSVal.str "EURUSD"),
          ("bid", JSVal.num (JNum.fin 1)), ("time", JSVal.num (JNum.fin 0))])])
        777 778).1 "EURUSD" = some q
      ∧ q.time = JSVal.num (JNum.fin 777)
      ∧ q.time ≠ JSVal.num (JNum.fin 0) := by
  refine ⟨_, rfl, rfl, ?_⟩
  intro hEq
  have h1 : JNum.fin 777 = JNum.fin 0 := JSVal.num.inj hEq
  have h2 : (777 : ℚ) = 0 := JNum.fin.inj h1
  norm_num at h2

/-- C7 (amended): on every merge through the normalizer, the stored
quote's `time` is set to the incoming time value whenever that value
coerced to a truthy number (nonzero, not `NaN`) — such a time is never
replaced by the wall clock — and the normalization-time wall clock is
stored when the upstream event supplied a time that is absent,
non-numeric, or coerces to zero. -/
theorem merge_time_semantics (st : QuoteStore) (subsL : List Subscriber) (m : JSVal)
    (nowNorm nowMerge : ℚ) (hsym : resolveSymbol m ≠ "") (hnow : nowNorm ≠ 0) :
    ∃ q, getQ (processQuoteLikeEvent st subsL m nowNorm nowMerge).1 (resolveSymbol m)
        = some q
      ∧ q.time = JSVal.num
          (if (toNumber ((first (srcOf m) timeAliases).getD .undefined)).truthy
            then toNumber ((first (srcOf m) timeAliases).getD .undefined)
            else JNum.fin nowNorm) := by
  simp only [processQuoteLikeEvent]
  rw [if_neg hsym]
  rw [touchQuote_fst _ _ _ _ _ hsym]
  refine ⟨_, getQ_setQ_self _ _ _, ?_⟩
  simp only [mergeQuote, normTime]
  cases ht : (toNumber ((first (srcOf m) timeAliases).getD .undefined)).truthy
  · rw [if_neg (by simp [ht])]
    simp [jsOr, JSVal.truthy, JNum.truthy, hnow]
  · rw [if_pos (by simp [ht])]
    simp [jsOr, JSVal.truthy, ht]

/-- C7 (amended) witness: an event supplying the nonzero numeric time
`123`, which the merge stores untouched. -/
theorem merge_time_semantics_witness :
    ∃ q, getQ (processQuoteLikeEvent [] []
        (JSVal.obj [("quote", JSVal.obj [("symbol", JSVal.str "EURUSD"),
          ("time", JSVal.num (JNum.fin 123))])]) 5 6).1
        (resolveSymbol (JSVal.obj [("quote", JSVal.obj [("symbol", JSVal.str "EURUSD"),
          ("time", JSVal.num (JNum.fin 123))])]))
        = some q
      ∧ q.time = JSVal.num
          (if (toNumber ((first (srcOf (JSVal.obj [("quote",
                JSVal.obj [("symbol", JSVal.str "EURUSD"),
                  ("time", JSVal.num (JNum.fin 123))])]))
              timeAliases).getD .undefined)).truthy
            then toNumber ((first (srcOf (JSVal.obj [("quote",
                JSVal.obj [("symbol", JSVal.str "EURUSD"),
                  ("time", JSVal.num (JNum.fin 123))])]))
              timeAliases).getD .undefined)
            else JNum.fin 5) :=
  merge_time_semantics [] []
    (JSVal.obj [("quote", JSVal.obj [("symbol", JSVal.str "EURUSD"),
      ("time", JSVal.num (JNum.fin 123))])]) 5 6
    (by decide) (by norm_num)
